import Mathlib

/-!
Shallow embedding of the image-to-tensor pipeline of
src/ts/canvas-to-tensor-component.ts (class CanvasToTensorComponent).

Conventions of the embedding:
* tensors of shape n by n are `Matrix (Fin n) (Fin n) ℝ`;
* JavaScript floating-point division is embedded by `fdiv`, which returns
  `none` when the divisor is zero (in IEEE arithmetic such a division
  yields NaN or an infinity, never a finite value) and `some (a / b)`
  otherwise; fallible downstream computations therefore live in `Option`;
* `tf.pad` with padding pairs `[[a, b], [c, d]]` places input cell
  `(i, j)` at output cell `(i + a, j + c)`; cells that fall outside the
  output are discarded and unfilled output cells take the constant 0.
  With the pairs `[[d0, -d0], [d1, -d1]]` used by `moveImage` the output
  shape equals the input shape, so `moveImage` is embedded directly as a
  same-shape shift;
* `tf.round` rounds half to even, embedded by `roundHalfEven`.
-/

namespace CanvasToTensor

noncomputable section

/-- Source constant IMAGE_SIZE = 28 (line 5). -/
def IMAGE_SIZE : ℕ := 28

/-- Source constant CANVAS_SCALE = 10 (line 6). -/
def CANVAS_SCALE : ℕ := 10

/-- Embedding of JavaScript float division: division by zero produces a
non-finite value (NaN or an infinity), embedded as `none`. -/
def fdiv (a b : ℝ) : Option ℝ := if b = 0 then none else some (a / b)

/-- Total mass of a field: `image.sum()` (line 246). -/
def massOf {n : ℕ} (f : Matrix (Fin n) (Fin n) ℝ) : ℝ :=
  ∑ i : Fin n, ∑ j : Fin n, f i j

/-- The row-index grid `ii = tf.range(0, h).expandDims(1).tile([1, w])`
(line 244): entry `(i, j)` holds `i`. -/
def rowIdx (n : ℕ) : Matrix (Fin n) (Fin n) ℝ :=
  Matrix.of fun i _ => (i : ℝ)

/-- The column-index grid `jj = tf.range(0, w).tile([h]).as2D(h, w)`
(line 245): entry `(i, j)` holds `j`. -/
def colIdx (n : ℕ) : Matrix (Fin n) (Fin n) ℝ :=
  Matrix.of fun _ j => (j : ℝ)

/-- Embedding of `centerOfMass` (lines 241-251): mass-weighted centroid
`(iPos, jPos)` where `iPos = image.mul(ii).sum().div(mass)` and
`jPos = image.mul(jj).sum().div(mass)`. The divisions are JavaScript
float divisions, so a zero mass yields `none` (NaN). -/
def centerOfMass {n : ℕ} (f : Matrix (Fin n) (Fin n) ℝ) : Option ℝ × Option ℝ :=
  (fdiv (∑ i : Fin n, ∑ j : Fin n, f i j * rowIdx n i j) (massOf f),
   fdiv (∑ i : Fin n, ∑ j : Fin n, f i j * colIdx n i j) (massOf f))

/-- Embedding of `moveImage` (lines 256-267) applied to an already
rounded integer displacement `d = (d0, d1)`: the source computes
`image.pad([[d0, -d0], [d1, -d1]]).as2D(h, w)`, i.e. input cell
`(a, b)` moves to `(a + d0, b + d1)`, cells pushed past an edge are
discarded, vacated cells are filled with 0; the `as2D` reshape is the
identity because the padded shape is already `(h, w)`. -/
def moveImage {n : ℕ} (f : Matrix (Fin n) (Fin n) ℝ) (d : ℤ × ℤ) :
    Matrix (Fin n) (Fin n) ℝ :=
  Matrix.of fun i j =>
    if h : 0 ≤ (i : ℤ) - d.1 ∧ (i : ℤ) - d.1 < n ∧
           0 ≤ (j : ℤ) - d.2 ∧ (j : ℤ) - d.2 < n then
      f ⟨((i : ℤ) - d.1).toNat, by omega⟩ ⟨((j : ℤ) - d.2).toNat, by omega⟩
    else 0

/-- Embedding of `.clipByValue(0, 1)` (line 160): elementwise clamp of
every entry into the interval from 0 to 1. -/
def clip01 {n : ℕ} (f : Matrix (Fin n) (Fin n) ℝ) : Matrix (Fin n) (Fin n) ℝ :=
  Matrix.of fun i j => min (max (f i j) 0) 1

/-- Embedding of `tf.round`, which rounds half to even (the rounding
applied to `distance` on line 259 of `moveImage`). -/
def roundHalfEven (x : ℝ) : ℤ :=
  if Int.fract x = 1 / 2 then (if Even ⌊x⌋ then ⌊x⌋ else ⌊x⌋ + 1)
  else round x

/-- Embedding of the grayscale chain `.mean(2).sub(255).neg().div(255)`
(lines 153-156) on one pixel with color channels `r`, `g`, `b`
(`tf.browser.fromPixels` returns the 3 color channels, alpha excluded). -/
def grayscale (r g b : ℝ) : ℝ := -((r + g + b) / 3 - 255) / 255

/-- The Gaussian center `size / 2.0 - 0.5` (line 214). -/
def gaussCenter (size : ℕ) : ℝ := (size : ℝ) / 2 - 0.5

/-- One unnormalized Gaussian weight (lines 222-224):
`Math.pow(Math.E, -dSquared / 2 / Math.pow(sigma, 2))` with
`dSquared = (x - center)^2 + (y - center)^2`. -/
def gaussWeight (size : ℕ) (sigma : ℝ) (x y : ℕ) : ℝ :=
  Real.exp (-(((x : ℝ) - gaussCenter size) ^ 2 + ((y : ℝ) - gaussCenter size) ^ 2)
    / 2 / sigma ^ 2)

/-- The running sum of all weights accumulated by the first loop nest
(lines 216-226). -/
def gaussSum (size : ℕ) (sigma : ℝ) : ℝ :=
  ∑ x : Fin size, ∑ y : Fin size, gaussWeight size sigma x y

/-- Embedding of `gaussFilter(size, sigma)` (lines 213-236): every
weight is divided by the sum of all weights (lines 229-233). The
function body performs no validation of `size` or `sigma`. -/
def gaussFilter (size : ℕ) (sigma : ℝ) : Matrix (Fin size) (Fin size) ℝ :=
  Matrix.of fun x y => gaussWeight size sigma x y / gaussSum size sigma

/-- The declared default of the `sigma` parameter in the signature
`gaussFilter(size: number, sigma: number = 1)` (line 213). -/
def gaussFilterDefaultSigma : ℝ := 1

/-- Invoking the Kernel Generator without an explicit sigma (line 213):
the default `sigma = 1` is used. -/
def gaussFilterDefault (size : ℕ) : Matrix (Fin size) (Fin size) ℝ :=
  gaussFilter size gaussFilterDefaultSigma

/-- The blur filter actually built by the pipeline (lines 145-148):
`gaussFilter(CANVAS_SCALE, Math.sqrt(CANVAS_SCALE))`. -/
def pipelineBlurFilter : Matrix (Fin CANVAS_SCALE) (Fin CANVAS_SCALE) ℝ :=
  gaussFilter CANVAS_SCALE (Real.sqrt CANVAS_SCALE)

/-- Embedding of the tail of `createTensor` (lines 160-169) starting
from the resized field `f`: clamp with `clipByValue(0, 1)`, compute the
center of mass of the clamped image, subtract it from the image center
`(n / 2, n / 2)`, round, and shift with `moveImage`. When the mass is
zero the centroid is NaN (`none`) and no valid grid is produced. -/
def pipelineTail (n : ℕ) (f : Matrix (Fin n) (Fin n) ℝ) :
    Option (Matrix (Fin n) (Fin n) ℝ) :=
  match centerOfMass (clip01 f) with
  | (some ci, some cj) =>
      some (moveImage (clip01 f)
        (roundHalfEven ((n : ℝ) / 2 - ci), roundHalfEven ((n : ℝ) / 2 - cj)))
  | _ => none

end

/-- C1: on the all-zero 28 by 28 field (blank input) the Moment Stage of
the code divides by the zero total mass: `centerOfMass` returns the NaN
pair `(none, none)` instead of signalling a recoverable ZeroMass
condition, so no valid all-zero OutputGrid is produced downstream. -/
theorem centerOfMass_blank_divides_by_zero :
    massOf (0 : Matrix (Fin 28) (Fin 28) ℝ) = 0 ∧
    centerOfMass (0 : Matrix (Fin 28) (Fin 28) ℝ) = (none, none) := by
  constructor
  · simp [massOf]
  · simp [centerOfMass, fdiv, massOf]

/-- C3: for every field with nonzero total mass, `centerOfMass` returns
the pair of centroids `(Ci, Cj)` with `Ci` the sum of `i * field i j`
divided by the mass and `Cj` the sum of `j * field i j` divided by the
mass, where `i` indexes rows and `j` indexes columns. -/
theorem centerOfMass_formula {n : ℕ} (f : Matrix (Fin n) (Fin n) ℝ)
    (h : massOf f ≠ 0) :
    centerOfMass f =
      (some ((∑ i : Fin n, ∑ j : Fin n, (i : ℝ) * f i j) / massOf f),
       some ((∑ i : Fin n, ∑ j : Fin n, (j : ℝ) * f i j) / massOf f)) := by
  unfold centerOfMass fdiv
  rw [if_neg h, if_neg h, Prod.mk.injEq]
  refine ⟨?_, ?_⟩ <;>
  · rw [Option.some_inj]
    congr 1
    refine Finset.sum_congr rfl fun i _ => Finset.sum_congr rfl fun j _ => ?_
    simp [rowIdx, colIdx, mul_comm]

/-- Witness for C3: the 1 by 1 field with single entry 2 has mass 2 and
centroid as given by the formula. -/
theorem centerOfMass_formula_witness :
    massOf !![(2 : ℝ)] ≠ 0 ∧
    centerOfMass !![(2 : ℝ)] =
      (some ((∑ i : Fin 1, ∑ j : Fin 1, (i : ℝ) * !![(2 : ℝ)] i j) / massOf !![(2 : ℝ)]),
       some ((∑ i : Fin 1, ∑ j : Fin 1, (j : ℝ) * !![(2 : ℝ)] i j) / massOf !![(2 : ℝ)])) := by
  have h : massOf !![(2 : ℝ)] ≠ 0 := by simp [massOf]
  exact ⟨h, centerOfMass_formula !![(2 : ℝ)] h⟩

/-- C6: for every pixel with color channels in the range 0 to 255 the
grayscale stage computes `(255 - mean)/255`, which lies in the unit
interval, so dark ink (low channel values) maps to high intensity. -/
theorem grayscale_spec (r g b : ℝ)
    (hr0 : 0 ≤ r) (hr1 : r ≤ 255) (hg0 : 0 ≤ g) (hg1 : g ≤ 255)
    (hb0 : 0 ≤ b) (hb1 : b ≤ 255) :
    grayscale r g b = (255 - (r + g + b) / 3) / 255 ∧
    0 ≤ grayscale r g b ∧ grayscale r g b ≤ 1 := by
  unfold grayscale
  refine ⟨by ring, by nlinarith, by nlinarith⟩

/-- Witness for C6: the black pixel (0, 0, 0) maps to intensity 1. -/
theorem grayscale_spec_witness :
    grayscale 0 0 0 = (255 - ((0 : ℝ) + 0 + 0) / 3) / 255 ∧
    0 ≤ grayscale 0 0 0 ∧ grayscale 0 0 0 ≤ 1 :=
  grayscale_spec 0 0 0 (by norm_num) (by norm_num) (by norm_num)
    (by norm_num) (by norm_num) (by norm_num)

/-- C2: the shift of `moveImage` keeps the dimensions of the field (its
type is the same square matrix type); a cell whose source coordinates
fall outside the field (in particular every cell of the first `d.1`
rows when `d.1 > 0`, and the mirrored sides for negative components) is
zero-filled, while every cell whose source coordinates are in range
holds exactly the corresponding input value, so content shifted past an
edge is discarded, never wrapped. -/
theorem moveImage_shift {n : ℕ} (f : Matrix (Fin n) (Fin n) ℝ) (d : ℤ × ℤ)
    (i j : Fin n) :
    (((i : ℤ) < d.1 ∨ (n : ℤ) + d.1 ≤ (i : ℤ) ∨
      (j : ℤ) < d.2 ∨ (n : ℤ) + d.2 ≤ (j : ℤ)) → moveImage f d i j = 0) ∧
    (∀ i' j' : Fin n, (i' : ℤ) = (i : ℤ) - d.1 → (j' : ℤ) = (j : ℤ) - d.2 →
      moveImage f d i j = f i' j') := by
  have hi := i.isLt
  have hj := j.isLt
  constructor
  · intro hcase
    simp only [moveImage, Matrix.of_apply]
    rw [dif_neg]
    omega
  · intro i' j' hi' hj'
    have hi'2 := i'.isLt
    have hj'2 := j'.isLt
    simp only [moveImage, Matrix.of_apply]
    have hc : 0 ≤ (i : ℤ) - d.1 ∧ (i : ℤ) - d.1 < n ∧
        0 ≤ (j : ℤ) - d.2 ∧ (j : ℤ) - d.2 < n := by omega
    rw [dif_pos hc]
    have e1 : (((i : ℤ) - d.1).toNat) = (i' : ℕ) := by omega
    have e2 : (((j : ℤ) - d.2).toNat) = (j' : ℕ) := by omega
    exact congrArg₂ f (Fin.ext e1) (Fin.ext e2)

/-- Witness for C2: shifting a concrete 2 by 2 field down by one row
zero-fills the top row and moves the old top row to the bottom. -/
theorem moveImage_shift_witness :
    moveImage !![(1 : ℝ), 2; 3, 4] (1, 0) 0 0 = 0 ∧
    moveImage !![(1 : ℝ), 2; 3, 4] (1, 0) 1 0 = !![(1 : ℝ), 2; 3, 4] 0 0 :=
  ⟨(moveImage_shift !![(1 : ℝ), 2; 3, 4] (1, 0) 0 0).1 (by decide),
   (moveImage_shift !![(1 : ℝ), 2; 3, 4] (1, 0) 1 0).2 0 0 (by decide) (by decide)⟩

/-- C10: every cell of the field returned by `moveImage` is either 0 or
a value taken from some cell of the input (the shape is preserved by
the type); consequently, although the code clamps before recentering,
an input field with values in the unit interval yields an output field
with values in the unit interval. -/
theorem moveImage_values {n : ℕ} (f : Matrix (Fin n) (Fin n) ℝ) (d : ℤ × ℤ)
    (i j : Fin n) :
    (moveImage f d i j = 0 ∨ ∃ i' j' : Fin n, moveImage f d i j = f i' j') ∧
    ((∀ a b : Fin n, 0 ≤ f a b ∧ f a b ≤ 1) →
      0 ≤ moveImage f d i j ∧ moveImage f d i j ≤ 1) := by
  simp only [moveImage, Matrix.of_apply]
  by_cases hc : 0 ≤ (i : ℤ) - d.1 ∧ (i : ℤ) - d.1 < n ∧
      0 ≤ (j : ℤ) - d.2 ∧ (j : ℤ) - d.2 < n
  · rw [dif_pos hc]
    refine ⟨Or.inr ⟨_, _, rfl⟩, fun hrange => ?_⟩
    exact hrange _ _
  · rw [dif_neg hc]
    exact ⟨Or.inl rfl, fun _ => ⟨le_refl 0, zero_le_one⟩⟩

/-- Witness for C10: a concrete clamped 1 by 1 field stays in the unit
interval after an identity shift. -/
theorem moveImage_values_witness :
    (moveImage !![(1 / 2 : ℝ)] (0, 0) 0 0 = 0 ∨
      ∃ i' j' : Fin 1, moveImage !![(1 / 2 : ℝ)] (0, 0) 0 0 = !![(1 / 2 : ℝ)] i' j') ∧
    (0 ≤ moveImage !![(1 / 2 : ℝ)] (0, 0) 0 0 ∧
      moveImage !![(1 / 2 : ℝ)] (0, 0) 0 0 ≤ 1) := by
  have h := moveImage_values !![(1 / 2 : ℝ)] (0, 0) 0 0
  refine ⟨h.1, h.2 fun a b => ?_⟩
  fin_cases a <;> fin_cases b <;> norm_num

/-- Helper: every unnormalized Gaussian weight is positive, for any
sigma, because the exponential is positive. -/
lemma gaussWeight_pos (size : ℕ) (sigma : ℝ) (x y : ℕ) :
    0 < gaussWeight size sigma x y :=
  Real.exp_pos _

/-- Helper: the accumulated weight sum is positive whenever the size is
positive, for any sigma. -/
lemma gaussSum_pos (size : ℕ) (sigma : ℝ) (hsize : 0 < size) :
    0 < gaussSum size sigma := by
  have hne : (Finset.univ : Finset (Fin size)).Nonempty :=
    ⟨⟨0, hsize⟩, Finset.mem_univ _⟩
  exact Finset.sum_pos
    (fun i _ => Finset.sum_pos (fun j _ => gaussWeight_pos size sigma i j) hne) hne

/-- Helper: the normalized kernel entries are nonnegative, for any
sigma, whenever the size is positive. -/
lemma gaussFilter_entry_nonneg (size : ℕ) (sigma : ℝ) (hsize : 0 < size)
    (x y : Fin size) : 0 ≤ gaussFilter size sigma x y :=
  div_nonneg (gaussWeight_pos size sigma x y).le (gaussSum_pos size sigma hsize).le

/-- Helper: the normalized kernel entries sum to 1, for any sigma,
whenever the size is positive. -/
lemma gaussFilter_sum_one (size : ℕ) (sigma : ℝ) (hsize : 0 < size) :
    (∑ x : Fin size, ∑ y : Fin size, gaussFilter size sigma x y) = 1 := by
  have hs := gaussSum_pos size sigma hsize
  simp only [gaussFilter, Matrix.of_apply, ← Finset.sum_div]
  exact div_self hs.ne'

/-- C4: for every positive kernel size and positive sigma, the kernel
produced by `gaussFilter` has only nonnegative entries and its entries
sum to exactly 1 in exact arithmetic. -/
theorem gaussFilter_normalized (size : ℕ) (sigma : ℝ)
    (hsize : 0 < size) (hsigma : 0 < sigma) :
    (∀ x y : Fin size, 0 ≤ gaussFilter size sigma x y) ∧
    (∑ x : Fin size, ∑ y : Fin size, gaussFilter size sigma x y) = 1 :=
  ⟨fun x y => gaussFilter_entry_nonneg size sigma hsize x y,
   gaussFilter_sum_one size sigma hsize⟩

/-- Witness for C4: the kernel of size 1 with sigma 1 is nonnegative and
sums to 1. -/
theorem gaussFilter_normalized_witness :
    (∀ x y : Fin 1, 0 ≤ gaussFilter 1 1 x y) ∧
    (∑ x : Fin 1, ∑ y : Fin 1, gaussFilter 1 1 x y) = 1 :=
  gaussFilter_normalized 1 1 (by norm_num) (by norm_num)

/-- Helper: the unnormalized weight is invariant under reflecting both
indices through the center of the grid. -/
lemma gaussWeight_reflect (size : ℕ) (sigma : ℝ) (x y : ℕ)
    (hx : x < size) (hy : y < size) :
    gaussWeight size sigma (size - 1 - x) (size - 1 - y) =
    gaussWeight size sigma x y := by
  unfold gaussWeight gaussCenter
  have e1 : ((size - 1 - x : ℕ) : ℝ) = (size : ℝ) - 1 - (x : ℝ) := by
    rw [Nat.cast_sub (by omega : x ≤ size - 1),
      Nat.cast_sub (by omega : 1 ≤ size)]
    norm_num
  have e2 : ((size - 1 - y : ℕ) : ℝ) = (size : ℝ) - 1 - (y : ℝ) := by
    rw [Nat.cast_sub (by omega : y ≤ size - 1),
      Nat.cast_sub (by omega : 1 ≤ size)]
    norm_num
  rw [e1, e2]
  congr 1
  ring

/-- C5: for every positive size and positive sigma the normalized kernel
is point symmetric about its center: the entry at `(x, y)` equals the
entry at `(size - 1 - x, size - 1 - y)`, the latter being `x.rev` and
`y.rev` in `Fin size`. -/
theorem gaussFilter_point_symmetric (size : ℕ) (sigma : ℝ)
    (hsize : 0 < size) (hsigma : 0 < sigma) (x y : Fin size) :
    ((x.rev : ℕ) = size - 1 - (x : ℕ)) ∧
    gaussFilter size sigma x y = gaussFilter size sigma x.rev y.rev := by
  have hx := x.isLt
  have hy := y.isLt
  have hxv : (x.rev : ℕ) = size - 1 - (x : ℕ) := by
    rw [Fin.val_rev]; omega
  have hyv : (y.rev : ℕ) = size - 1 - (y : ℕ) := by
    rw [Fin.val_rev]; omega
  refine ⟨hxv, ?_⟩
  simp only [gaussFilter, Matrix.of_apply, hxv, hyv]
  rw [gaussWeight_reflect size sigma x y hx hy]

/-- Witness for C5: in the kernel of size 2 with sigma 1 the entry at
(0, 0) equals the entry at the reflected position (1, 1). -/
theorem gaussFilter_point_symmetric_witness :
    (((0 : Fin 2).rev : ℕ) = 2 - 1 - ((0 : Fin 2) : ℕ)) ∧
    gaussFilter 2 1 0 0 = gaussFilter 2 1 (0 : Fin 2).rev (0 : Fin 2).rev :=
  gaussFilter_point_symmetric 2 1 (by norm_num) (by norm_num) 0 0

/-- Counterexample for C8: calling the Kernel Generator with the
nonpositive sigma value -1 is not rejected: the full computation runs
and returns a genuine normalized kernel, with positive entry at (0, 0)
and total mass 1. -/
theorem gaussFilter_negative_sigma_computes :
    0 < gaussFilter 2 (-1) 0 0 ∧
    (∑ x : Fin 2, ∑ y : Fin 2, gaussFilter 2 (-1) x y) = 1 :=
  ⟨lt_of_le_of_ne (gaussFilter_entry_nonneg 2 (-1) (by norm_num) 0 0)
      (by
        have hw := gaussWeight_pos 2 (-1) 0 0
        have hs := gaussSum_pos 2 (-1) (by norm_num)
        exact fun h => absurd h.symm (div_ne_zero hw.ne' hs.ne')),
   gaussFilter_sum_one 2 (-1) (by norm_num)⟩

/-- C8 amended: `gaussFilter` performs no parameter validation; for a
positive size and a negative sigma the computation proceeds and returns
the same normalized kernel as for the corresponding positive sigma
(only sigma squared enters the weights), with total mass 1, instead of
rejecting the call. -/
theorem gaussFilter_no_validation (size : ℕ) (sigma : ℝ)
    (hsize : 0 < size) (hsigma : sigma < 0) :
    gaussFilter size sigma = gaussFilter size (-sigma) ∧
    (∑ x : Fin size, ∑ y : Fin size, gaussFilter size sigma x y) = 1 := by
  have hw : ∀ x y : ℕ, gaussWeight size (-sigma) x y = gaussWeight size sigma x y := by
    intro x y
    unfold gaussWeight
    rw [neg_sq]
  have hs : gaussSum size (-sigma) = gaussSum size sigma := by
    unfold gaussSum
    exact Finset.sum_congr rfl fun x _ => Finset.sum_congr rfl fun y _ => hw x y
  constructor
  · ext x y
    simp only [gaussFilter, Matrix.of_apply, hw, hs]
  · exact gaussFilter_sum_one size sigma hsize

/-- Witness for C8 amended: at size 2 and sigma -1 the generator
computes the same normalized kernel as at sigma 1. -/
theorem gaussFilter_no_validation_witness :
    gaussFilter 2 (-1) = gaussFilter 2 1 ∧
    (∑ x : Fin 2, ∑ y : Fin 2, gaussFilter 2 (-1) x y) = 1 := by
  have h := gaussFilter_no_validation 2 (-1) (by norm_num) (by norm_num)
  refine ⟨?_, h.2⟩
  rw [h.1]
  norm_num

/-- Counterexample for C9: the declared default sigma of the Kernel
Generator is 1, which differs from the square root of the default size
CANVAS_SCALE = 10 that the claim asserts. -/
theorem gaussFilterDefaultSigma_ne_sqrt :
    gaussFilterDefaultSigma ≠ Real.sqrt (CANVAS_SCALE : ℝ) := by
  simp only [gaussFilterDefaultSigma, CANVAS_SCALE, Nat.cast_ofNat]
  intro h
  have h10 : Real.sqrt 10 ^ 2 = 10 := Real.sq_sqrt (by norm_num)
  rw [← h] at h10
  norm_num at h10

/-- C9 amended: the Kernel Generator invoked without an explicit sigma
uses its declared default sigma = 1, not the square root of the size;
the pipeline does not rely on that default but explicitly passes
sigma = sqrt CANVAS_SCALE = sqrt 10, so the kernel the pipeline builds
is gaussFilter CANVAS_SCALE (sqrt 10). -/
theorem gaussFilter_default_is_one :
    gaussFilterDefaultSigma = 1 ∧
    (∀ size : ℕ, gaussFilterDefault size = gaussFilter size 1) ∧
    pipelineBlurFilter = gaussFilter CANVAS_SCALE (Real.sqrt (CANVAS_SCALE : ℝ)) :=
  ⟨rfl, fun _ => rfl, rfl⟩

/-- Helper: JavaScript float division with a nonzero divisor is the
exact real division. -/
lemma fdiv_ne_zero (a b : ℝ) (h : b ≠ 0) : fdiv a b = some (a / b) := by
  simp [fdiv, h]

/-- Helper: every cell of the output of `moveImage` is either the
zero fill or a value copied from some cell of the input. -/
lemma moveImage_entry {n : ℕ} (f : Matrix (Fin n) (Fin n) ℝ) (d : ℤ × ℤ)
    (i j : Fin n) :
    moveImage f d i j = 0 ∨ ∃ i' j' : Fin n, moveImage f d i j = f i' j' := by
  simp only [moveImage, Matrix.of_apply]
  by_cases hc : 0 ≤ (i : ℤ) - d.1 ∧ (i : ℤ) - d.1 < n ∧
      0 ≤ (j : ℤ) - d.2 ∧ (j : ℤ) - d.2 < n
  · rw [dif_pos hc]
    exact Or.inr ⟨_, _, rfl⟩
  · rw [dif_neg hc]
    exact Or.inl rfl

/-- Helper: every entry of the clamped field lies in the unit
interval. -/
lemma clip01_entry_mem {n : ℕ} (f : Matrix (Fin n) (Fin n) ℝ) (a b : Fin n) :
    0 ≤ clip01 f a b ∧ clip01 f a b ≤ 1 :=
  ⟨le_min (le_max_right _ _) zero_le_one, min_le_right _ _⟩

/-- Counterexample for C7: on the all-zero 28 by 28 field (reachable
from a blank canvas) the clamped field has zero mass, the centroid
divisions yield NaN, and the pipeline tail produces no valid
OutputGrid at all, so the range claim fails as stated for every input
buffer. -/
theorem pipelineTail_blank_no_grid :
    pipelineTail 28 (0 : Matrix (Fin 28) (Fin 28) ℝ) = none := by
  have hcl : clip01 (0 : Matrix (Fin 28) (Fin 28) ℝ) = 0 := by
    ext i j
    simp [clip01]
  unfold pipelineTail
  rw [hcl]
  simp [centerOfMass, fdiv, massOf]

/-- C7 amended: for every input field whose clamped version has nonzero
total mass, the pipeline tail returns an OutputGrid all of whose values
lie in the unit interval: the Clamp Stage clips to the unit interval
(before recentering in the code) and the shift only copies clamped
values or fills zeros, so convolution overshoot cannot escape into the
output. -/
theorem pipelineTail_range {n : ℕ} (f : Matrix (Fin n) (Fin n) ℝ)
    (h : massOf (clip01 f) ≠ 0) :
    ∃ g, pipelineTail n f = some g ∧
      ∀ i j : Fin n, 0 ≤ g i j ∧ g i j ≤ 1 := by
  unfold pipelineTail centerOfMass
  rw [fdiv_ne_zero _ _ h, fdiv_ne_zero _ _ h]
  refine ⟨_, rfl, fun i j => ?_⟩
  rcases moveImage_entry (clip01 f) _ i j with h0 | ⟨i', j', he⟩
  · rw [h0]
    exact ⟨le_refl 0, zero_le_one⟩
  · rw [he]
    exact clip01_entry_mem f i' j'

/-- Witness for C7 amended: the constant-one 1 by 1 field has nonzero
clamped mass and the pipeline tail returns a grid with values in the
unit interval. -/
theorem pipelineTail_range_witness :
    massOf (clip01 !![(1 : ℝ)]) ≠ 0 ∧
    ∃ g, pipelineTail 1 !![(1 : ℝ)] = some g ∧
      ∀ i j : Fin 1, 0 ≤ g i j ∧ g i j ≤ 1 := by
  have hmass : massOf (clip01 !![(1 : ℝ)]) ≠ 0 := by
    simp [massOf, clip01]
  exact ⟨hmass, pipelineTail_range !![(1 : ℝ)] hmass⟩

end CanvasToTensor
